import Mathlib

/-!
Shallow embedding of `src/app.py` (voice_analyzer).

The program's real logic is:
  * `analyze_text` (lines 44-69): strict `json.loads` of the stripped LLM
    response, with a fallback parse of the substring from the first `{`
    to the last `}` (Python slice `first[first.find("{") : first.rfind("}")+1]`);
  * `save_uploaded_file` (lines 71-76): temp file with the upload's extension
    (`os.path.splitext`), and mic staging via `mkstemp(suffix=".wav")`;
  * the main body (lines 118-160): stage, transcribe inside `try/finally`
    with `os.unlink`, show transcript, run analysis, render results,
    threat banner (`analysis.get("threat_level", "none")`, shown when the
    lowercased value is "high" or "potential"), download button.

Strings are modelled as `List Char`; Python exceptions as `Option`/`none`.
-/

/-- A Python value produced by `json.loads`.  Numeric literals keep their
lexeme (the matched text of the scanner's number regex), which is enough to
state every property below and avoids floating-point semantics. -/
inductive JValue where
  | jnull
  | jbool (b : Bool)
  | jnum (lexeme : List Char)
  | jstr (s : List Char)
  | jarr (elems : List JValue)
  | jobj (members : List (List Char × JValue))

/-- JSON whitespace skipped by Python's json scanner: space, tab, LF, CR. -/
def jsonWs (c : Char) : Bool :=
  c = ' ' || c = '\t' || c = '\n' || c = '\r'

/-- Characters removed by Python `str.strip()` (`str.isspace`). -/
def pySpace (c : Char) : Bool :=
  [0x20, 0x09, 0x0a, 0x0b, 0x0c, 0x0d, 0x1c, 0x1d, 0x1e, 0x1f, 0x85, 0xa0,
   0x1680, 0x2000, 0x2001, 0x2002, 0x2003, 0x2004, 0x2005, 0x2006, 0x2007,
   0x2008, 0x2009, 0x200a, 0x2028, 0x2029, 0x202f, 0x205f, 0x3000].contains c.toNat

/-- Python `str.strip()`: drop leading and trailing whitespace. -/
def pystrip (l : List Char) : List Char :=
  ((l.dropWhile pySpace).reverse.dropWhile pySpace).reverse

/-- Python `str.find(c)` for a one-character needle: index of the first
occurrence, or `-1`. -/
def pyfind (c : Char) : List Char → Int
  | [] => -1
  | x :: xs => if x = c then 0 else if pyfind c xs = -1 then -1 else pyfind c xs + 1

/-- Python `str.rfind(c)` for a one-character needle: index of the last
occurrence, or `-1`. -/
def pyrfind (c : Char) (l : List Char) : Int :=
  if pyfind c l.reverse = -1 then -1 else (l.length : Int) - 1 - pyfind c l.reverse

/-- Clamp a Python slice index to `[0, len]` (negative indices count from
the end). -/
def pyclamp (len : Nat) (i : Int) : Nat :=
  if i < 0 then (i + len).toNat else min i.toNat len

/-- Python slice `l[a:b]`. -/
def pyslice (l : List Char) (a b : Int) : List Char :=
  (l.take (pyclamp l.length b)).drop (pyclamp l.length a)

/-- ASCII decimal digit test (the json number grammar is ASCII-only). -/
def isDigit (c : Char) : Bool := '0' ≤ c && c ≤ '9'

/-- Mandatory integer part of the json number regex: `-?(0|[1-9]\d*)` after
the sign has been taken. -/
def parseIntPart : List Char → Option (List Char × List Char)
  | [] => none
  | c :: rest =>
    if c = '0' then some (['0'], rest)
    else if isDigit c then
      let s := rest.span isDigit
      some (c :: s.1, s.2)
    else none

/-- Match Python's `NUMBER_RE` at the head of the input, returning the
matched lexeme and the rest: `(-?(?:0|[1-9]\d*))(\.\d+)?([eE][-+]?\d+)?`. -/
def parseNumber (l : List Char) : Option (List Char × List Char) :=
  let signed : Bool × List Char := match l with
    | '-' :: r => (true, r)
    | _ => (false, l)
  match parseIntPart signed.2 with
  | none => none
  | some (ip, r1) =>
    let fr : List Char × List Char := match r1 with
      | '.' :: r =>
        let s := r.span isDigit
        if s.1 = [] then ([], r1) else ('.' :: s.1, s.2)
      | _ => ([], r1)
    let ex : List Char × List Char := match fr.2 with
      | e :: r =>
        if e = 'e' || e = 'E' then
          match r with
          | sgn :: r2 =>
            if sgn = '+' || sgn = '-' then
              let s := r2.span isDigit
              if s.1 = [] then ([], fr.2) else (e :: sgn :: s.1, s.2)
            else
              let s := r.span isDigit
              if s.1 = [] then ([], fr.2) else (e :: s.1, s.2)
          | [] => ([], fr.2)
        else ([], fr.2)
      | [] => ([], fr.2)
    let lex := (if signed.1 then ['-'] else []) ++ ip ++ fr.1 ++ ex.1
    some (lex, ex.2)

/-- Value of a hex digit, as used by the `\uXXXX` string escape: digits
map to 0-9, lowercase `a`-`f` and uppercase `A`-`F` both map to 10-15. -/
def hexVal (c : Char) : Option Nat :=
  let n := c.toNat
  if 48 ≤ n ∧ n ≤ 57 then some (n - 48)
  else if 97 ≤ n ∧ n ≤ 102 then some (n - 87)
  else if 65 ≤ n ∧ n ≤ 70 then some (n - 55)
  else none

/-- Decode the four hex digits of a `\uXXXX` escape. -/
def hex4 : List Char → Option (Nat × List Char)
  | a :: b :: c :: d :: r =>
    match hexVal a, hexVal b, hexVal c, hexVal d with
    | some x, some y, some z, some w => some (((x * 16 + y) * 16 + z) * 16 + w, r)
    | _, _, _, _ => none
  | _ => none

/-- Body of a json string (after the opening quote), Python strict mode:
control characters below 0x20 are rejected, the escapes are
`\" \\ \/ \b \f \n \r \t \uXXXX`, and a high/low surrogate escape pair is
combined.  Returns the decoded characters and the input after the closing
quote. -/
def parseStringBody : Nat → List Char → Option (List Char × List Char)
  | 0, _ => none
  | _ + 1, [] => none
  | _ + 1, '"' :: r => some ([], r)
  | fuel + 1, '\\' :: esc => match esc with
    | [] => none
    | e :: r =>
      let simple : Option Char :=
        if e = '"' then some '"'
        else if e = '\\' then some '\\'
        else if e = '/' then some '/'
        else if e = 'b' then some (Char.ofNat 0x08)
        else if e = 'f' then some (Char.ofNat 0x0c)
        else if e = 'n' then some '\n'
        else if e = 'r' then some '\r'
        else if e = 't' then some '\t'
        else none
      match simple with
      | some c =>
        match parseStringBody fuel r with
        | some (s, rest) => some (c :: s, rest)
        | none => none
      | none =>
        if e = 'u' then
          match hex4 r with
          | none => none
          | some (n, r2) =>
            if 0xd800 ≤ n && n ≤ 0xdbff then
              match r2 with
              | '\\' :: 'u' :: r3 =>
                match hex4 r3 with
                | some (n2, r4) =>
                  if 0xdc00 ≤ n2 && n2 ≤ 0xdfff then
                    match parseStringBody fuel r4 with
                    | some (s, rest) =>
                      some (Char.ofNat (0x10000 + (n - 0xd800) * 0x400 + (n2 - 0xdc00)) :: s, rest)
                    | none => none
                  else
                    match parseStringBody fuel r2 with
                    | some (s, rest) => some (Char.ofNat n :: s, rest)
                    | none => none
                | none =>
                  match parseStringBody fuel r2 with
                  | some (s, rest) => some (Char.ofNat n :: s, rest)
                  | none => none
              | _ =>
                match parseStringBody fuel r2 with
                | some (s, rest) => some (Char.ofNat n :: s, rest)
                | none => none
            else
              match parseStringBody fuel r2 with
              | some (s, rest) => some (Char.ofNat n :: s, rest)
              | none => none
        else none
  | fuel + 1, c :: r =>
    if c.toNat < 0x20 then none
    else
      match parseStringBody fuel r with
      | some (s, rest) => some (c :: s, rest)
      | none => none

mutual

/-- Python json scanner: one value at the head of the input (whitespace
already skipped), returning the value and the remaining input. -/
def parseValue : Nat → List Char → Option (JValue × List Char)
  | 0, _ => none
  | fuel + 1, l => match l with
    | [] => none
    | 'n' :: 'u' :: 'l' :: 'l' :: r => some (.jnull, r)
    | 't' :: 'r' :: 'u' :: 'e' :: r => some (.jbool true, r)
    | 'f' :: 'a' :: 'l' :: 's' :: 'e' :: r => some (.jbool false, r)
    | 'N' :: 'a' :: 'N' :: r => some (.jnum ['N', 'a', 'N'], r)
    | 'I' :: 'n' :: 'f' :: 'i' :: 'n' :: 'i' :: 't' :: 'y' :: r =>
      some (.jnum ['I', 'n', 'f', 'i', 'n', 'i', 't', 'y'], r)
    | '-' :: 'I' :: 'n' :: 'f' :: 'i' :: 'n' :: 'i' :: 't' :: 'y' :: r =>
      some (.jnum ['-', 'I', 'n', 'f', 'i', 'n', 'i', 't', 'y'], r)
    | '"' :: r =>
      match parseStringBody (r.length + 1) r with
      | some (s, rest) => some (.jstr s, rest)
      | none => none
    | '{' :: r =>
      match (r.dropWhile jsonWs) with
      | '}' :: r2 => some (.jobj [], r2)
      | r2 => parseMembers fuel r2 []
    | '[' :: r =>
      match (r.dropWhile jsonWs) with
      | ']' :: r2 => some (.jarr [], r2)
      | r2 => parseElements fuel r2 []
    | _ =>
      match parseNumber l with
      | some (lex, r) => some (.jnum lex, r)
      | none => none

/-- Members of a json object after the opening brace (first key at the
head of the input); duplicate keys are kept in order, the Python `dict`
semantics (last occurrence wins) lives in lookup. -/
def parseMembers : Nat → List Char → List (List Char × JValue) →
    Option (JValue × List Char)
  | 0, _, _ => none
  | fuel + 1, l, acc => match l with
    | '"' :: r =>
      match parseStringBody (r.length + 1) r with
      | none => none
      | some (key, r1) =>
        match r1.dropWhile jsonWs with
        | ':' :: r2 =>
          match parseValue fuel (r2.dropWhile jsonWs) with
          | none => none
          | some (v, r3) =>
            match r3.dropWhile jsonWs with
            | ',' :: r4 => parseMembers fuel (r4.dropWhile jsonWs) (acc ++ [(key, v)])
            | '}' :: r4 => some (.jobj (acc ++ [(key, v)]), r4)
            | _ => none
        | _ => none
    | _ => none

/-- Elements of a json array after the opening bracket (first element at
the head of the input). -/
def parseElements : Nat → List Char → List JValue → Option (JValue × List Char)
  | 0, _, _ => none
  | fuel + 1, l, acc =>
    match parseValue fuel l with
    | none => none
    | some (v, r) =>
      match r.dropWhile jsonWs with
      | ',' :: r2 => parseElements fuel (r2.dropWhile jsonWs) (acc ++ [v])
      | ']' :: r2 => some (.jarr (acc ++ [v]), r2)
      | _ => none

end

/-- Python `json.loads`: skip leading whitespace, scan one value, and
require only whitespace to remain; any `JSONDecodeError` is `none`. -/
def json_loads (l : List Char) : Option JValue :=
  match parseValue (8 * l.length + 8) (l.dropWhile jsonWs) with
  | some (v, rest) => if rest.dropWhile jsonWs = [] then some v else none
  | none => none

/-- `analyze_text`'s response handling (src/app.py lines 62-69): strict
parse of the stripped response; on failure, parse the Python slice
`first[first.find("\x7b") : first.rfind("\x7d") + 1]`.  The network call is
abstracted away: the function takes the response text. -/
def analyze_text (response : List Char) : Option JValue :=
  let first := pystrip response
  match json_loads first with
  | some v => some v
  | none => json_loads (pyslice first (pyfind '{' first) (pyrfind '}' first + 1))

/-- Python dict lookup for the object produced by `json.loads`: with
duplicate keys the last binding wins, as in `dict`. -/
def jget (m : List (List Char × JValue)) (k : List Char) : Option JValue :=
  m.foldl (fun acc p => if p.1 = k then some p.2 else acc) none

/-- Python `str.lower()` (ASCII-relevant part). -/
def pyLower (l : List Char) : List Char := l.map Char.toLower

/-- Python `str.upper()` (ASCII-relevant part). -/
def pyUpper (l : List Char) : List Char := l.map Char.toUpper

/-- Key of the sentiment label field. -/
def osKey : List Char := "overall_sentiment".toList

/-- Key of the sentiment score field. -/
def ssKey : List Char := "sentiment_score".toList

/-- Key of the summary field. -/
def suKey : List Char := "summary".toList

/-- Key of the threat level field. -/
def tlKey : List Char := "threat_level".toList

/-- Line 150: `threat = analysis.get("threat_level", "none")`. -/
def threatOf (m : List (List Char × JValue)) : JValue :=
  match jget m tlKey with
  | some v => v
  | none => .jstr "none".toList

/-- Line 152's banner text: `f"⚠️ Threat detected: **\x7bthreat.upper()\x7d**"`. -/
def bannerText (s : List Char) : List Char :=
  "⚠️ Threat detected: **".toList ++ pyUpper s ++ "**".toList

/-- Lines 151-152: the banner is shown exactly when the lowercased threat
string is in `("high", "potential")`; `some` carries the rendered text. -/
def shownBanner (s : List Char) : Option (List Char) :=
  if pyLower s = "high".toList ∨ pyLower s = "potential".toList
  then some (bannerText s) else none

/-- Threat banner step on the analysis object: outer `none` models the
`AttributeError` of `threat.lower()` when the value is not a string;
`some none` is "no banner", `some (some t)` is "banner with text t". -/
def bannerOf (m : List (List Char × JValue)) : Option (Option (List Char)) :=
  match threatOf m with
  | .jstr s => some (shownBanner s)
  | _ => none

/-- Lines 141-148: the results columns read `analysis["overall_sentiment"]`,
`analysis["sentiment_score"]`, `analysis["summary"]` by direct subscript;
a missing key (or a non-mapping analysis) is a `KeyError`/`TypeError`,
modelled as `none`. -/
def renderResults (v : JValue) : Option (JValue × JValue × JValue) :=
  match v with
  | .jobj m =>
    match jget m osKey, jget m ssKey, jget m suKey with
    | some a, some b, some c => some (a, b, c)
    | _, _, _ => none
  | _ => none

/-- UI events emitted by the main body after transcription. -/
inductive Ev where
  | transcriptShown (t : List Char)
  | analysisCalled
  | resultsShown (sentiment score summary : JValue)
  | bannerShown (text : List Char)
  | downloadOffered

/-- Lines 141-160 as an event trace: results columns, then the optional
threat banner, then the download button; a raised error cuts the trace. -/
def renderEvents (v : JValue) : List Ev :=
  match v with
  | .jobj m =>
    match renderResults (.jobj m) with
    | none => []
    | some (a, b, c) =>
      Ev.resultsShown a b c ::
        match bannerOf m with
        | none => []
        | some none => [Ev.downloadOffered]
        | some (some t) => [Ev.bannerShown t, Ev.downloadOffered]
  | _ => []

/-- Lines 118-160 from the point where the staged file exists: the file
system is a list of paths, `tOut` is the transcription outcome (`none` =
the Whisper call raised) and `aResp` is the LLM response text.  The
`try/finally` at lines 129-132 unlinks the staged path on both outcomes;
the transcript is rendered (lines 134-135) before the analysis call
(lines 137-138). -/
def runMain (fs : List (List Char)) (path : List Char) (tOut : Option (List Char))
    (aResp : List Char) : List Ev × List (List Char) :=
  let fs1 := path :: fs
  let fs2 := fs1.filter (fun q => q ≠ path)
  match tOut with
  | none => ([], fs2)
  | some t =>
    let evs := [Ev.transcriptShown t, Ev.analysisCalled]
    match analyze_text aResp with
    | none => (evs, fs2)
    | some v => (evs ++ renderEvents v, fs2)

/-- `os.path.splitext(p)[1]` (posixpath): the suffix from the last dot,
provided that dot comes after the last separator and the basename up to it
is not all dots. -/
def splitext_ext (p : List Char) : List Char :=
  let sepIdx := pyrfind '/' p
  let dotIdx := pyrfind '.' p
  if sepIdx < dotIdx then
    let base := (p.take dotIdx.toNat).drop (sepIdx + 1).toNat
    if base.any (fun c => c ≠ '.') then p.drop dotIdx.toNat else []
  else []

/-- Lines 71-76 `save_uploaded_file`: the staged name is the random
`NamedTemporaryFile` stem followed by the upload's extension
(`suffix=os.path.splitext(uploaded_file.name)[1]`). -/
def save_uploaded_file_name (tmpstem name : List Char) : List Char :=
  tmpstem ++ splitext_ext name

/-- Lines 125-127: mic staging `tempfile.mkstemp(suffix=".wav")`. -/
def mic_staged_name (tmpstem : List Char) : List Char :=
  tmpstem ++ ".wav".toList

/-- Whether a parsed value is a mapping (a Python `dict`); `analyze_text`
performs no such validation. -/
def isMapping : JValue → Bool
  | .jobj _ => true
  | _ => false

/-! Helper lemmas about the Python string primitives. -/

theorem dropWhile_head_false {p : Char → Bool} {l : List Char} {c : Char}
    (h : l.head? = some c) (hc : p c = false) : l.dropWhile p = l := by
  cases l with
  | nil => simp at h
  | cons a t =>
    simp only [List.head?_cons, Option.some.injEq] at h
    subst h
    simp [List.dropWhile_cons, hc]

theorem dropWhile_append_stop {p : Char → Bool} {l₁ l₂ : List Char} {c : Char}
    (h : l₂.head? = some c) (hc : p c = false) :
    (l₁ ++ l₂).dropWhile p = l₁.dropWhile p ++ l₂ := by
  rw [List.dropWhile_append]
  by_cases he : (l₁.dropWhile p).isEmpty
  · rw [if_pos he, dropWhile_head_false h hc]
    rw [List.isEmpty_iff] at he
    rw [he, List.nil_append]
  · rw [if_neg he]

theorem mem_dropWhile {p : Char → Bool} {l : List Char} {x : Char}
    (h : x ∈ l.dropWhile p) : x ∈ l := by
  have hs : List.Sublist (l.dropWhile p) l := List.dropWhile_sublist _
  exact hs.subset h

theorem mem_pystrip {l : List Char} {x : Char} (h : x ∈ pystrip l) : x ∈ l := by
  unfold pystrip at h
  rw [List.mem_reverse] at h
  have h2 := mem_dropWhile h
  rw [List.mem_reverse] at h2
  exact mem_dropWhile h2

theorem pystrip_append {pre obj sfx : List Char} {c1 c2 : Char}
    (h1 : obj.head? = some c1) (hc1 : pySpace c1 = false)
    (h2 : obj.getLast? = some c2) (hc2 : pySpace c2 = false) :
    pystrip (pre ++ obj ++ sfx) =
      pre.dropWhile pySpace ++ obj ++ (sfx.reverse.dropWhile pySpace).reverse := by
  unfold pystrip
  have hobj : obj ≠ [] := by
    intro he; rw [he] at h1; simp at h1
  have hch : (obj ++ sfx).head? = some c1 := by
    rw [List.head?_append_of_ne_nil _ hobj]; exact h1
  rw [List.append_assoc, dropWhile_append_stop hch hc1]
  have hrev : (obj.reverse ++ (pre.dropWhile pySpace).reverse).head? = some c2 := by
    have : obj.reverse ≠ [] := by simpa using hobj
    rw [List.head?_append_of_ne_nil _ this, List.head?_reverse]; exact h2
  rw [List.reverse_append, List.reverse_append, List.append_assoc,
    dropWhile_append_stop hrev hc2]
  simp [List.reverse_append, List.append_assoc]

theorem pyfind_not_mem {c : Char} {l : List Char} (h : c ∉ l) : pyfind c l = -1 := by
  induction l with
  | nil => rfl
  | cons a t ih =>
    rw [List.mem_cons, not_or] at h
    rw [pyfind, if_neg (by simpa [eq_comm] using h.1), ih h.2]
    simp

theorem neg_one_le_pyfind (c : Char) (l : List Char) : -1 ≤ pyfind c l := by
  induction l with
  | nil => simp [pyfind]
  | cons a t ih =>
    rw [pyfind]
    by_cases ha : a = c
    · simp [ha]
    · rw [if_neg ha]
      by_cases hm : pyfind c t = -1
      · simp [hm]
      · rw [if_neg hm]; omega

theorem pyfind_append_first {c : Char} {l₁ : List Char} (l₂ : List Char)
    (h : c ∉ l₁) : pyfind c (l₁ ++ c :: l₂) = (l₁.length : Int) := by
  induction l₁ with
  | nil => simp [pyfind]
  | cons a t ih =>
    rw [List.mem_cons, not_or] at h
    have ht := ih h.2
    rw [List.cons_append, pyfind, if_neg (by simpa [eq_comm] using h.1), ht]
    have : ((t.length : Int)) ≠ -1 := by omega
    rw [if_neg this]
    simp only [List.length_cons]
    omega

theorem pyfind_mem_left {c : Char} {l₁ : List Char} (l₂ : List Char)
    (h : c ∈ l₁) : 0 ≤ pyfind c (l₁ ++ l₂) ∧ pyfind c (l₁ ++ l₂) < (l₁.length : Int) := by
  induction l₁ with
  | nil => simp at h
  | cons a t ih =>
    rw [List.cons_append, pyfind]
    by_cases ha : a = c
    · rw [if_pos ha]
      simp only [List.length_cons]
      omega
    · rw [if_neg ha]
      have hm : c ∈ t := by
        rcases List.mem_cons.mp h with h' | h'
        · exact absurd h'.symm ha
        · exact h'
      have := ih hm
      rw [if_neg (by omega)]
      simp only [List.length_cons]
      omega

theorem pyfind_spec {c : Char} {l : List Char} (h : 0 ≤ pyfind c l) :
    ∃ l₁ l₂, l = l₁ ++ c :: l₂ ∧ (l₁.length : Int) = pyfind c l ∧ c ∉ l₁ := by
  induction l with
  | nil => simp [pyfind] at h
  | cons a t ih =>
    by_cases ha : a = c
    · refine ⟨[], t, by rw [ha]; rfl, ?_, by simp⟩
      rw [pyfind, if_pos ha]; rfl
    · rw [pyfind, if_neg ha] at h ⊢
      by_cases hm : pyfind c t = -1
      · rw [if_pos hm] at h; omega
      · rw [if_neg hm] at h ⊢
        have h0 : 0 ≤ pyfind c t := by
          have := neg_one_le_pyfind c t; omega
        obtain ⟨l₁, l₂, he, hl, hn⟩ := ih h0
        refine ⟨a :: l₁, l₂, by rw [he]; rfl, ?_, ?_⟩
        · simp; omega
        · rw [List.mem_cons, not_or]
          exact ⟨fun hh => ha hh.symm, hn⟩

theorem pyrfind_not_mem {c : Char} {l : List Char} (h : c ∉ l) : pyrfind c l = -1 := by
  unfold pyrfind
  rw [pyfind_not_mem (by simpa using h)]
  simp

theorem pyrfind_append_last {c : Char} {l₂ : List Char} (l₁ : List Char)
    (h : c ∉ l₂) : pyrfind c (l₁ ++ c :: l₂) = (l₁.length : Int) := by
  unfold pyrfind
  have hr : (l₁ ++ c :: l₂).reverse = l₂.reverse ++ c :: l₁.reverse := by
    simp
  rw [hr, pyfind_append_first l₁.reverse (by simpa using h)]
  have : ((l₂.reverse.length : Int)) ≠ -1 := by omega
  rw [if_neg this]
  simp
  omega

theorem pyrfind_spec {c : Char} {l : List Char} (h : 0 ≤ pyrfind c l) :
    ∃ l₁ l₂, l = l₁ ++ c :: l₂ ∧ (l₁.length : Int) = pyrfind c l ∧ c ∉ l₂ := by
  unfold pyrfind at h ⊢
  by_cases hm : pyfind c l.reverse = -1
  · rw [if_pos hm] at h; omega
  · rw [if_neg hm] at h ⊢
    have h0 : 0 ≤ pyfind c l.reverse := by
      have := neg_one_le_pyfind c l.reverse; omega
    obtain ⟨a, b, he, hl, hn⟩ := pyfind_spec h0
    refine ⟨b.reverse, a.reverse, ?_, ?_, by simpa using hn⟩
    · have := congrArg List.reverse he
      simpa [List.reverse_append] using this
    · have hlen := congrArg List.length he
      simp at hlen
      simp
      omega

theorem pyrfind_lt_of_not_mem_right {c x : Char} {l₁ l₂ : List Char}
    (hout : pyrfind c (l₁ ++ x :: l₂) ≤ (l₁.length : Int)) : c ∉ l₂ := by
  intro hmem
  have hrw : (l₁ ++ x :: l₂).reverse = l₂.reverse ++ x :: l₁.reverse := by simp
  have hf := pyfind_mem_left (x :: l₁.reverse)
    (show c ∈ l₂.reverse from by simpa using hmem)
  rw [← hrw] at hf
  unfold pyrfind at hout
  rw [if_neg (by omega)] at hout
  have hlen : ((l₁ ++ x :: l₂).length : Int) = l₁.length + 1 + l₂.length := by
    simp; omega
  rw [hlen] at hout
  have : (l₂.reverse.length : Int) = l₂.length := by simp
  omega

theorem pyslice_middle (l₁ l₂ l₃ : List Char) :
    pyslice (l₁ ++ l₂ ++ l₃) ((l₁.length : Int)) (((l₁.length + l₂.length : Nat) : Int)) = l₂ := by
  unfold pyslice pyclamp
  rw [if_neg (by omega), if_neg (by omega)]
  have hL : (l₁ ++ l₂ ++ l₃).length = l₁.length + l₂.length + l₃.length := by
    simp only [List.length_append]
  have h1 : ((l₁.length + l₂.length : Nat) : Int).toNat = l₁.length + l₂.length := by
    simp only [Int.toNat_natCast]
  have h2 : ((l₁.length : Nat) : Int).toNat = l₁.length := by
    simp only [Int.toNat_natCast]
  rw [h1, h2, hL]
  rw [Nat.min_eq_left (by omega), Nat.min_eq_left (by omega)]
  rw [List.take_left' (by simp : (l₁ ++ l₂).length = l₁.length + l₂.length)]
  exact List.drop_left l₁ l₂

theorem pyslice_empty_of_none (l : List Char) : pyslice l (-1) 0 = [] := by
  simp [pyslice, pyclamp]

theorem json_loads_nil : json_loads [] = none := rfl

/-- Strict-parse success path of `analyze_text`: the parsed value is
returned unchanged. -/
theorem analyze_text_strict {resp : List Char} {v : JValue}
    (h : json_loads (pystrip resp) = some v) : analyze_text resp = some v := by
  simp only [analyze_text]
  rw [h]

/-- Recovery path of `analyze_text`: if the strict parse of the stripped
response fails, the response is a JSON object text `obj` (starting with
`0x7b` and ending with `0x7d`) surrounded by a left context without `0x7b`
and a right context without `0x7d`, then `analyze_text` returns exactly the
value of `obj`. -/
theorem analyze_text_recovery {pre obj sfx : List Char} {v : JValue}
    (hpre : '{' ∉ pre) (hsfx : '}' ∉ sfx)
    (hhead : obj.head? = some '{') (hlast : obj.getLast? = some '}')
    (hparse : json_loads obj = some v)
    (hstrict : json_loads (pystrip (pre ++ obj ++ sfx)) = none) :
    analyze_text (pre ++ obj ++ sfx) = some v := by
  have hstrip : pystrip (pre ++ obj ++ sfx) =
      pre.dropWhile pySpace ++ obj ++ (sfx.reverse.dropWhile pySpace).reverse :=
    pystrip_append hhead (by decide) hlast (by decide)
  have hpre' : '{' ∉ pre.dropWhile pySpace := fun hm => hpre (mem_dropWhile hm)
  have hsfx' : '}' ∉ (sfx.reverse.dropWhile pySpace).reverse := by
    intro hm
    rw [List.mem_reverse] at hm
    exact hsfx (by simpa using mem_dropWhile hm)
  obtain ⟨t, rfl⟩ : ∃ t, obj = '{' :: t := by
    cases obj with
    | nil => simp at hhead
    | cons a t =>
      simp only [List.head?_cons, Option.some.injEq] at hhead
      exact ⟨t, by rw [hhead]⟩
  obtain ⟨u, hu⟩ : ∃ u, '{' :: t = u ++ ['}'] := by
    have hrv : ('{' :: t).reverse.head? = some '}' := by
      rw [List.head?_reverse]; exact hlast
    cases hr : ('{' :: t).reverse with
    | nil => rw [hr] at hrv; simp at hrv
    | cons b w =>
      rw [hr] at hrv
      simp only [List.head?_cons, Option.some.injEq] at hrv
      refine ⟨w.reverse, ?_⟩
      have := congrArg List.reverse hr
      simpa [hrv] using this
  set p' := pre.dropWhile pySpace with hp'
  set s' := (sfx.reverse.dropWhile pySpace).reverse with hs'
  have hfind : pyfind '{' (p' ++ '{' :: t ++ s') = (p'.length : Int) := by
    rw [List.append_assoc]
    exact pyfind_append_first (t ++ s') hpre'
  have hrfind : pyrfind '}' (p' ++ '{' :: t ++ s') = ((p' ++ u).length : Int) := by
    rw [hu, ← List.append_assoc, List.append_assoc (p' ++ u) ['}'] s']
    exact pyrfind_append_last (p' ++ u) hsfx'
  have hlen : ('{' :: t).length = u.length + 1 := by
    rw [hu]; simp
  have hslice : pyslice (p' ++ '{' :: t ++ s') (pyfind '{' (p' ++ '{' :: t ++ s'))
      (pyrfind '}' (p' ++ '{' :: t ++ s') + 1) = '{' :: t := by
    rw [hfind, hrfind]
    have harg : ((p' ++ u).length : Int) + 1 = ((p'.length + ('{' :: t).length : Nat) : Int) := by
      simp only [List.length_append]
      rw [hlen]
      push_cast
      ring
    rw [harg]
    exact pyslice_middle p' ('{' :: t) s'
  simp only [analyze_text]
  rw [hstrip] at hstrict ⊢
  rw [hstrict, hslice, hparse]

/-- Failure path of `analyze_text` on a response with no brace at all and
an unparseable strict pass: the slice is `first[-1:0] = ""` and the second
parse fails too. -/
theorem analyze_text_no_braces {resp : List Char}
    (h1 : '{' ∉ resp) (h2 : '}' ∉ resp)
    (hs : json_loads (pystrip resp) = none) : analyze_text resp = none := by
  have h1' : '{' ∉ pystrip resp := fun hm => h1 (mem_pystrip hm)
  have h2' : '}' ∉ pystrip resp := fun hm => h2 (mem_pystrip hm)
  simp only [analyze_text]
  rw [hs, pyfind_not_mem h1', pyrfind_not_mem h2']
  have : (-1 : Int) + 1 = 0 := by omega
  rw [this, pyslice_empty_of_none, json_loads_nil]

theorem pyfind_lt_length (c : Char) (l : List Char) : pyfind c l < (l.length : Int) := by
  induction l with
  | nil => simp [pyfind]
  | cons a t ih =>
    rw [pyfind]
    by_cases ha : a = c
    · rw [if_pos ha]; simp only [List.length_cons]; omega
    · rw [if_neg ha]
      by_cases hm : pyfind c t = -1
      · rw [if_pos hm]; simp only [List.length_cons]; omega
      · rw [if_neg hm]; simp only [List.length_cons]; omega

theorem neg_one_le_pyrfind (c : Char) (l : List Char) : -1 ≤ pyrfind c l := by
  unfold pyrfind
  by_cases hm : pyfind c l.reverse = -1
  · rw [if_pos hm]
  · rw [if_neg hm]
    have h1 := pyfind_lt_length c l.reverse
    simp only [List.length_reverse] at h1
    omega

theorem splitext_ext_shape (p : List Char) :
    splitext_ext p = [] ∨
      ∃ rest, splitext_ext p = '.' :: rest ∧ '.' ∉ rest ∧ '/' ∉ rest := by
  unfold splitext_ext
  by_cases h : pyrfind '/' p < pyrfind '.' p
  · rw [if_pos h]
    by_cases ha : ((p.take (pyrfind '.' p).toNat).drop (pyrfind '/' p + 1).toNat).any
        (fun c => c ≠ '.')
    · rw [if_pos ha]
      right
      have hd : 0 ≤ pyrfind '.' p := by
        have := neg_one_le_pyrfind '/' p; omega
      obtain ⟨l₁, l₂, he, hl, hn⟩ := pyrfind_spec hd
      refine ⟨l₂, ?_, hn, ?_⟩
      · have ht : (pyrfind '.' p).toNat = l₁.length := by omega
        rw [ht, he]
        exact List.drop_left l₁ ('.' :: l₂)
      · refine pyrfind_lt_of_not_mem_right
          (show pyrfind '/' (l₁ ++ '.' :: l₂) ≤ (l₁.length : Int) from ?_)
        rw [← he]
        omega
    · rw [if_neg ha]; left; rfl
  · rw [if_neg h]; left; rfl

theorem splitext_ext_no_dot {b : List Char} (hbd : '.' ∉ b) : splitext_ext b = [] := by
  unfold splitext_ext
  rw [pyrfind_not_mem hbd]
  have := neg_one_le_pyrfind '/' b
  rw [if_neg (by omega)]

theorem splitext_ext_append_stem {b rest : List Char} (hb : b ≠ [])
    (hbd : '.' ∉ b) (hbs : '/' ∉ b) (hrd : '.' ∉ rest) (hrs : '/' ∉ rest) :
    splitext_ext (b ++ '.' :: rest) = '.' :: rest := by
  unfold splitext_ext
  have hdot : pyrfind '.' (b ++ '.' :: rest) = (b.length : Int) :=
    pyrfind_append_last b hrd
  have hsep : pyrfind '/' (b ++ '.' :: rest) = -1 := by
    refine pyrfind_not_mem ?_
    intro hm
    rcases List.mem_append.mp hm with hm | hm
    · exact hbs hm
    · rcases List.mem_cons.mp hm with hm | hm
      · exact absurd hm (by decide)
      · exact hrs hm
  rw [hdot, hsep, if_pos (by omega)]
  have htn : ((b.length : Int)).toNat = b.length := by simp
  have hz : ((-1 : Int) + 1).toNat = 0 := rfl
  rw [htn, hz, List.drop_zero, List.take_left' rfl]
  cases b with
  | nil => exact absurd rfl hb
  | cons x t =>
    have hx : x ≠ '.' := by
      intro hxe
      exact hbd (by rw [hxe]; exact List.mem_cons_self _ _)
    rw [if_pos ?_]
    · exact List.drop_left (x :: t) ('.' :: rest)
    · simp [List.any_cons, hx]

theorem not_mem_filter_ne (l : List (List Char)) (p : List Char) :
    p ∉ l.filter (fun q => q ≠ p) := by
  intro h
  have := (List.mem_filter.mp h).2
  simp at this

/-- Claim C1, as stated, is false: a response made of a valid JSON object
surrounded by a left context with no `0x7b` and a right context with no
`0x7d` need not be recovered verbatim, because the strict first-pass parse
can succeed on the whole response and return a different value.  Concrete
input: the response `[\x7b\x7d]` strict-parses as a one-element array, so
`analyze` returns that array, not the enclosed empty object. -/
theorem C1_claim_counterexample :
    ('{' ∉ ['[']) ∧ ('}' ∉ [']']) ∧
    (['{', '}'] : List Char).head? = some '{' ∧
    (['{', '}'] : List Char).getLast? = some '}' ∧
    json_loads ['{', '}'] = some (.jobj []) ∧
    analyze_text (['['] ++ ['{', '}'] ++ [']']) = some (.jarr [.jobj []]) ∧
    JValue.jarr [.jobj []] ≠ .jobj [] :=
  ⟨by decide, by decide, rfl, rfl, rfl, rfl, fun h => JValue.noConfusion h⟩

/-- Claim C1 (amended): if additionally the strict first-pass parse of the
stripped response fails — which is always the case for a ```json code
fence, whose backtick cannot begin a JSON document — then `analyze_text`
parses the slice from the first `0x7b` to the last `0x7d` and returns
exactly the enclosed object's value. -/
theorem C1_recovery_of_strict_failure (pre obj sfx : List Char) (v : JValue)
    (hpre : '{' ∉ pre) (hsfx : '}' ∉ sfx)
    (hhead : obj.head? = some '{') (hlast : obj.getLast? = some '}')
    (hparse : json_loads obj = some v)
    (hstrict : json_loads (pystrip (pre ++ obj ++ sfx)) = none) :
    analyze_text (pre ++ obj ++ sfx) = some v :=
  analyze_text_recovery hpre hsfx hhead hlast hparse hstrict

/-- Witness for C1: the fenced response ```` ```json\n\x7b"a": 1\x7d\n``` ````
is recovered to the object `\x7b"a": 1\x7d`. -/
theorem C1_recovery_of_strict_failure_witness :
    analyze_text ("```json\n".toList ++ "\x7b\"a\": 1\x7d".toList ++ "\n```".toList) =
      some (.jobj [("a".toList, .jnum "1".toList)]) :=
  C1_recovery_of_strict_failure "```json\n".toList "\x7b\"a\": 1\x7d".toList "\n```".toList
    (.jobj [("a".toList, .jnum "1".toList)])
    (by decide) (by decide) rfl rfl rfl rfl

/-- Claim C2, as stated, is false: a brace-free response can still be valid
JSON, in which case the strict first-pass parse succeeds and `analyze`
returns its value instead of failing.  Concrete input: the response `null`
has no `0x7b` and no `0x7d`, yet `analyze` returns `None`. -/
theorem C2_claim_counterexample :
    ('{' ∉ "null".toList) ∧ ('}' ∉ "null".toList) ∧
      analyze_text "null".toList = some .jnull :=
  ⟨by decide, by decide, rfl⟩

/-- Claim C2 (amended): for every response with no `0x7b` and no `0x7d`
whose strict parse (of the stripped text) also fails, `analyze_text` fails
with a parse error — the recovery slice is `first[-1:0] = ""`, which is
not JSON, so no partially-populated or fabricated result is returned. -/
theorem C2_no_brace_parse_failure (resp : List Char)
    (h1 : '{' ∉ resp) (h2 : '}' ∉ resp)
    (hs : json_loads (pystrip resp) = none) :
    analyze_text resp = none :=
  analyze_text_no_braces h1 h2 hs

/-- Witness for C2: a prose response without braces fails both parse
attempts. -/
theorem C2_no_brace_parse_failure_witness :
    analyze_text "no braces at all".toList = none :=
  C2_no_brace_parse_failure "no braces at all".toList (by decide) (by decide) rfl

/-- Claim C9: `analyze_text` does not validate that the parsed response is
a mapping: the response `42` is valid JSON of a non-object type and is
returned as the number 42 without any error. -/
theorem C9_non_mapping_returned :
    analyze_text "42".toList = some (.jnum "42".toList) ∧
      isMapping (.jnum "42".toList) = false :=
  ⟨rfl, rfl⟩

/-- Claim C3: when the response text strict-parses as a JSON object
containing the four expected fields, `analyze_text` returns that object
unchanged, so all four fields match the input verbatim. -/
theorem C3_strict_verbatim (resp : List Char) (m : List (List Char × JValue))
    (a b c d : JValue)
    (h : json_loads (pystrip resp) = some (.jobj m))
    (ha : jget m osKey = some a) (hb : jget m ssKey = some b)
    (hc : jget m suKey = some c) (hd : jget m tlKey = some d) :
    ∃ m', analyze_text resp = some (.jobj m') ∧
      jget m' osKey = some a ∧ jget m' ssKey = some b ∧
      jget m' suKey = some c ∧ jget m' tlKey = some d :=
  ⟨m, analyze_text_strict h, ha, hb, hc, hd⟩

set_option maxRecDepth 40000 in
/-- Witness for C3 at the spec's example analysis response. -/
theorem C3_strict_verbatim_witness :
    ∃ m', analyze_text "\x7b\"overall_sentiment\": \"negative\", \"sentiment_score\": -0.8, \"summary\": \"Hostile language detected.\", \"threat_level\": \"high\"\x7d".toList =
        some (.jobj m') ∧
      jget m' osKey = some (.jstr "negative".toList) ∧
      jget m' ssKey = some (.jnum "-0.8".toList) ∧
      jget m' suKey = some (.jstr "Hostile language detected.".toList) ∧
      jget m' tlKey = some (.jstr "high".toList) :=
  C3_strict_verbatim _
    [(osKey, .jstr "negative".toList), (ssKey, .jnum "-0.8".toList),
     (suKey, .jstr "Hostile language detected.".toList), (tlKey, .jstr "high".toList)]
    _ _ _ _ rfl rfl rfl rfl rfl

/-- Claim C4: a missing `threat_level` falls back to the string `none`,
which never renders a banner (so `potential`/`high` is never fabricated),
while a missing `overall_sentiment`, `sentiment_score` or `summary` gets no
default anywhere: rendering faults instead. -/
theorem C4_threat_default_only :
    (∀ m, jget m tlKey = none → threatOf m = .jstr "none".toList) ∧
    (∀ m, jget m tlKey = none → bannerOf m = some none) ∧
    (∀ m, jget m osKey = none → renderResults (.jobj m) = none) ∧
    (∀ m, jget m ssKey = none → renderResults (.jobj m) = none) ∧
    (∀ m, jget m suKey = none → renderResults (.jobj m) = none) := by
  refine ⟨?_, ?_, ?_, ?_, ?_⟩
  · intro m h
    simp only [threatOf]
    rw [h]
  · intro m h
    simp only [bannerOf, threatOf]
    rw [h]
    rfl
  · intro m h
    simp only [renderResults]
    rw [h]
  · intro m h
    simp only [renderResults]
    rw [h]
    cases jget m osKey <;> rfl
  · intro m h
    simp only [renderResults]
    rw [h]
    cases jget m osKey <;> cases jget m ssKey <;> rfl

/-- Witness for C4 at the empty analysis object. -/
theorem C4_threat_default_only_witness :
    threatOf [] = .jstr "none".toList ∧ bannerOf [] = some none ∧
      renderResults (.jobj []) = none :=
  ⟨C4_threat_default_only.1 [] rfl, C4_threat_default_only.2.1 [] rfl,
   C4_threat_default_only.2.2.1 [] rfl⟩

/-- Claim C6: the threat banner is rendered iff the lowercased threat
level equals `potential` or `high`, and the banner text contains the
uppercased threat level. -/
theorem C6_banner_iff (m : List (List Char × JValue)) (s : List Char)
    (h : threatOf m = .jstr s) :
    bannerOf m = some (shownBanner s) ∧
    ((shownBanner s).isSome = true ↔
      (pyLower s = "potential".toList ∨ pyLower s = "high".toList)) ∧
    (∀ b, shownBanner s = some b → ∃ u w, b = u ++ pyUpper s ++ w) := by
  refine ⟨?_, ?_, ?_⟩
  · simp only [bannerOf]
    rw [h]
  · by_cases hc : pyLower s = "high".toList ∨ pyLower s = "potential".toList
    · rw [shownBanner, if_pos hc]
      exact iff_of_true rfl hc.symm
    · rw [shownBanner, if_neg hc]
      exact iff_of_false (by simp) (fun hx => hc hx.symm)
  · intro b hb
    rw [shownBanner] at hb
    by_cases hc : pyLower s = "high".toList ∨ pyLower s = "potential".toList
    · rw [if_pos hc] at hb
      injection hb with hb2
      exact ⟨"⚠️ Threat detected: **".toList, "**".toList, hb2.symm⟩
    · rw [if_neg hc] at hb
      exact absurd hb (by simp)

/-- Witness for C6: threat level `high` renders the banner. -/
theorem C6_banner_iff_witness :
    bannerOf [(tlKey, .jstr "high".toList)] = some (shownBanner "high".toList) ∧
      (shownBanner "high".toList).isSome = true := by
  have h := C6_banner_iff [(tlKey, .jstr "high".toList)] "high".toList rfl
  exact ⟨h.1, h.2.1.mpr (Or.inr rfl)⟩

/-- Claim C7: a missing `overall_sentiment`, `sentiment_score` or `summary`
makes the rendering step fault (the subscript lookup fails); `analyze_text`
itself neither recovers nor defaults anything — a strict-parse success is
returned untouched. -/
theorem C7_missing_required_field_faults :
    (∀ m, (jget m osKey = none ∨ jget m ssKey = none ∨ jget m suKey = none) →
        renderResults (.jobj m) = none) ∧
    (∀ resp v, json_loads (pystrip resp) = some v → analyze_text resp = some v) := by
  constructor
  · intro m h
    rcases h with h | h | h
    · simp only [renderResults]
      rw [h]
    · simp only [renderResults]
      rw [h]
      cases jget m osKey <;> rfl
    · simp only [renderResults]
      rw [h]
      cases jget m osKey <;> cases jget m ssKey <;> rfl
  · intro resp v h
    exact analyze_text_strict h

/-- Witness for C7: the empty object faults in rendering, and a strict
parse success passes through `analyze_text` untouched. -/
theorem C7_missing_required_field_faults_witness :
    renderResults (.jobj []) = none ∧
      analyze_text "3".toList = some (.jnum "3".toList) :=
  ⟨C7_missing_required_field_faults.1 [] (Or.inl rfl),
   C7_missing_required_field_faults.2 "3".toList (.jnum "3".toList) rfl⟩

/-- Claim C5: after the transcription step the staged path is gone from
the file system, whether the transcription call returned normally
(`some t`) or raised (`none`) — the `finally` clause unlinks it in both
cases. -/
theorem C5_staged_file_released :
    ∀ (fs : List (List Char)) (path aResp : List Char),
      path ∉ (runMain fs path none aResp).2 ∧
      ∀ t, path ∉ (runMain fs path (some t) aResp).2 := by
  intro fs path aResp
  constructor
  · simp only [runMain]
    exact not_mem_filter_ne _ _
  · intro t
    simp only [runMain]
    cases analyze_text aResp <;> exact not_mem_filter_ne _ _

/-- Claim C8: the staged temporary file keeps the uploaded file's
extension, and a microphone capture is always staged as `.wav`; the
temp-file stem is nonempty and contains no dot and no separator. -/
theorem C8_staged_extension (tmpstem name : List Char)
    (h1 : tmpstem ≠ []) (h2 : '.' ∉ tmpstem) (h3 : '/' ∉ tmpstem) :
    splitext_ext (save_uploaded_file_name tmpstem name) = splitext_ext name ∧
    splitext_ext (mic_staged_name tmpstem) = ".wav".toList := by
  constructor
  · rcases splitext_ext_shape name with he | ⟨rest, he, hrd, hrs⟩
    · simp only [save_uploaded_file_name]
      rw [he, List.append_nil]
      exact splitext_ext_no_dot h2
    · simp only [save_uploaded_file_name]
      rw [he]
      exact splitext_ext_append_stem h1 h2 h3 hrd hrs
  · simp only [mic_staged_name]
    have hw : ".wav".toList = '.' :: "wav".toList := rfl
    rw [hw]
    exact splitext_ext_append_stem h1 h2 h3 (by decide) (by decide)

/-- Witness for C8 with a concrete `mkstemp`-style stem and upload name. -/
theorem C8_staged_extension_witness :
    splitext_ext (save_uploaded_file_name "tmpq8r2".toList "song.mp3".toList) =
      splitext_ext "song.mp3".toList ∧
    splitext_ext (mic_staged_name "tmpq8r2".toList) = ".wav".toList :=
  C8_staged_extension "tmpq8r2".toList "song.mp3".toList
    (by decide) (by decide) (by decide)

/-- Claim C10: after a successful transcription the transcript is the
first rendered event and the analysis call comes strictly after it; when
the analysis raises (parse failure), the trace is exactly transcript
display followed by the analysis call — the transcript was already
displayed. -/
theorem C10_transcript_before_analysis :
    ∀ (fs : List (List Char)) (path t aResp : List Char),
      (runMain fs path (some t) aResp).1.take 2 =
        [Ev.transcriptShown t, Ev.analysisCalled] ∧
      (analyze_text aResp = none →
        (runMain fs path (some t) aResp).1 =
          [Ev.transcriptShown t, Ev.analysisCalled]) := by
  intro fs path t aResp
  constructor
  · simp only [runMain]
    cases analyze_text aResp <;> rfl
  · intro h
    simp only [runMain]
    rw [h]

/-- Witness for C10: an unparseable analysis response still leaves the
transcript displayed. -/
theorem C10_transcript_before_analysis_witness :
    (runMain [] "tmpw".toList (some "hello".toList) "oops".toList).1 =
      [Ev.transcriptShown "hello".toList, Ev.analysisCalled] :=
  (C10_transcript_before_analysis [] "tmpw".toList "hello".toList "oops".toList).2 rfl

/-- Witness for C5 at concrete values, for both transcription outcomes. -/
theorem C5_staged_file_released_witness :
    "tmpx".toList ∉ (runMain [] "tmpx".toList none "resp".toList).2 ∧
    "tmpx".toList ∉ (runMain [] "tmpx".toList (some "text".toList) "resp".toList).2 :=
  ⟨(C5_staged_file_released [] "tmpx".toList "resp".toList).1,
   (C5_staged_file_released [] "tmpx".toList "resp".toList).2 "text".toList⟩
